import Mathlib

/-!
Shallow embedding of the load-balancer repository (`main.go` and the `backend`
package it pulls in) and proofs of the behavioural claims about it.

The pure/sequential content of the code is translated directly:

* `backend.Backend` / `backend.ServerPool` become structures over `String`,
  `Bool`, `List` and `Nat`; the `uint64` cursor is a `Nat` with the wraparound
  written explicitly as `% 2 ^ 64`.
* The `ReverseProxy` forwarder and the TCP dial used by the health check are
  opaque capabilities in the code; they are modelled as boolean-valued
  environments (`net`, `dial : String → Bool`) passed explicitly.
* The request context values stored under the `Attempts` and `Retry` keys
  become a `Request` record of two `Option Nat` fields.
* The mutually recursive `lb` / `proxy.ErrorHandler` control flow is a
  fuel-indexed step function `dispatch`; a separate lemma shows a fixed fuel
  is always sufficient on a non-empty pool, so fuel exhaustion is a modelling
  artefact, not a behaviour.
* Go runtime panics (the `1 % 0` division by zero on an empty pool) are
  modelled as `none`.
-/

namespace LB

/-- The modulus of Go `uint64` arithmetic (`atomic.AddUint64` wraps mod `2^64`). -/
def U64 : Nat := 2 ^ 64

/-- `backend.Backend`: the URL (identified with its string form, which is what
`MarkBackendStatus` compares via `URL.String()`) and the `Alive` flag.  The
`ReverseProxy` field is the forwarding capability, modelled as the separate
transport environment `net : String → Bool` of the dispatch functions. -/
structure Backend where
  URL : String
  Alive : Bool
deriving Repr, DecidableEq

/-- `backend.ServerPool`: the backend slice and the `current` cursor (`uint64`). -/
structure ServerPool where
  backends : List Backend
  current : Nat
deriving Repr, DecidableEq

/-- `ServerPool.AddBackend`: append to the slice. -/
def ServerPool.AddBackend (s : ServerPool) (b : Backend) : ServerPool :=
  { s with backends := s.backends ++ [b] }

/-- `ServerPool.NextIndex`, which in the source is
`int(atomic.AddUint64(&s.current, uint64(1)%uint64(len(s.backends))))`.
Note the `%` binds to the literal `1`: the amount added is `1 % len`, and the
value returned is the new raw counter, not reduced modulo the pool size.
On an empty pool `1 % 0` is a Go runtime panic (integer divide by zero),
modelled as `none`.  The `int(...)` conversion is value-preserving below
`2 ^ 63`. -/
def ServerPool.NextIndex (s : ServerPool) : Option (Nat × ServerPool) :=
  if s.backends.length = 0 then none
  else
    let cur := (s.current + 1 % s.backends.length) % U64
    some (cur, { s with current := cur })

/-- The read `s.backends[i % len(s.backends)].IsAlive()` performed inside the
`GetNextPeer` loop body (out-of-range reads never happen on a non-empty pool
since `i % len < len`). -/
def aliveAt (bs : List Backend) (i : Nat) : Bool :=
  match bs.get? (i % bs.length) with
  | some b => b.Alive
  | none => false

/-- The `for i := next; i < l; i++` scan of `GetNextPeer`: check `k`
consecutive loop values starting at `i`, returning the first loop value whose
backend (at index `i % len`) is alive. -/
def scanAlive (bs : List Backend) : Nat → Nat → Option Nat
  | _, 0 => none
  | i, k + 1 => if aliveAt bs i then some i else scanAlive bs (i + 1) k

/-- `ServerPool.GetNextPeer`: take `next := NextIndex()`, scan
`len(s.backends)` consecutive loop values (indices wrap via `% len`); on the
first alive backend, additionally store its reduced index into the cursor when
the loop variable moved past `next`, and return its index.  The inner `none`
models the `nil` return when the scan finds no alive backend; the outer `none`
models the panic of `NextIndex` on an empty pool. -/
def ServerPool.GetNextPeer (s : ServerPool) : Option (Option Nat × ServerPool) :=
  match s.NextIndex with
  | none => none
  | some (next, s1) =>
    match scanAlive s1.backends next s1.backends.length with
    | none => some (none, s1)
    | some i =>
      let idx := i % s1.backends.length
      if i ≠ next then some (some idx, { s1 with current := idx })
      else some (some idx, s1)

/-- The loop body of `MarkBackendStatus`: walk the slice, and on the first
backend whose `URL.String()` equals the argument, set its liveness and `break`. -/
def markList (bs : List Backend) (u : String) (alive : Bool) : List Backend :=
  match bs with
  | [] => []
  | b :: rest =>
    if b.URL = u then { b with Alive := alive } :: rest
    else b :: markList rest u alive

/-- `ServerPool.MarkBackendStatus`. -/
def ServerPool.MarkBackendStatus (s : ServerPool) (u : String) (alive : Bool) : ServerPool :=
  { s with backends := markList s.backends u alive }

/-- `isBackendAlive`: a bare TCP dial with a 2 s timeout; the reachability
outcome is the opaque environment `dial` (the timeout and the log line on
failure have no bearing on the returned value). -/
def isBackendAlive (dial : String → Bool) (u : String) : Bool := dial u

/-- `ServerPool.HealthCheck`: probe every backend, set its liveness to the
probe outcome, and emit one log record per backend — the URL together with
`"up"`, flipped to `"down"` when the probe failed.  Returns the updated pool
and the record list. -/
def ServerPool.HealthCheck (s : ServerPool) (dial : String → Bool) :
    ServerPool × List (String × String) :=
  ({ s with
      backends := s.backends.map fun b => { b with Alive := isBackendAlive dial b.URL } },
   s.backends.map fun b => (b.URL, if isBackendAlive dial b.URL then "up" else "down"))

/-- The request context: the values stored under the `Attempts` and `Retry`
keys (absent on a fresh inbound request). -/
structure Request where
  attempts : Option Nat
  retries : Option Nat
deriving Repr, DecidableEq

/-- `GetAttemptsFromContext`: the `Attempts` context value, defaulting to 1. -/
def GetAttemptsFromContext (r : Request) : Nat := r.attempts.getD 1

/-- `GetRetryFromContext`: the `Retry` context value, defaulting to 0. -/
def GetRetryFromContext (r : Request) : Nat := r.retries.getD 0

/-- Observable side effects of one dispatch: a forwarding attempt through a
backend's proxy (with its outcome), the 10 ms `time.After` pause before a
same-backend retry, a `MarkBackendStatus(url, false)` call, and an
`http.Error` terminal write. -/
inductive Event where
  | forward (url : String) (ok : Bool)
  | delay (ms : Nat)
  | markDead (url : String)
  | errorWrite (status : Nat) (body : String)
deriving Repr, DecidableEq

/-- What the caller of the load balancer receives: the proxied response of
some backend, or an `http.Error` status/body pair. -/
inductive Response where
  | success (url : String)
  | failure (status : Nat) (body : String)
deriving Repr, DecidableEq

/-- Whether a response is a proxied backend response. -/
def Response.isSuccess : Response → Bool
  | Response.success _ => true
  | Response.failure _ _ => false

/-- Control position of the dispatch state machine: at the top of `lb`, or
inside `ReverseProxy.ServeHTTP` / `ErrorHandler` for the backend with the
given URL. -/
inductive Mode where
  | lb
  | serve (url : String)
deriving Repr, DecidableEq

/-- One logical request's dispatch: `lb` (`main.go` lines 39–54) mutually with
proxy forwarding and its `ErrorHandler` (lines 92–111), written as a
fuel-indexed step function.  `none` means the fuel ran out or the empty-pool
panic fired; `dispatch_isSome_of_fuel` below shows a fuel of 64 always
suffices on a non-empty pool.

Faithful details: the attempts ceiling test is `attempts > 3` with default 1;
the retry test is `retries < 3` with default 0; the retry re-forwards through
the same proxy with only the `Retry` context value replaced; on retry
exhaustion the backend is first marked dead, then `lb` is re-entered with only
the `Attempts` context value replaced — in particular the exhausted `Retry`
value stays in the context. -/
def dispatch (net : String → Bool) :
    Nat → Mode → ServerPool → Request → Option (ServerPool × Response × List Event)
  | 0, _, _, _ => none
  | fuel + 1, Mode.lb, s, req =>
    if GetAttemptsFromContext req > 3 then
      some (s, Response.failure 503 "service not available",
        [Event.errorWrite 503 "service not available"])
    else
      match s.GetNextPeer with
      | none => none
      | some (none, s1) =>
        some (s1, Response.failure 503 "Service not available",
          [Event.errorWrite 503 "Service not available"])
      | some (some idx, s1) =>
        match s1.backends.get? idx with
        | none => none
        | some b => dispatch net fuel (Mode.serve b.URL) s1 req
  | fuel + 1, Mode.serve url, s, req =>
    if net url then some (s, Response.success url, [Event.forward url true])
    else
      let retries := GetRetryFromContext req
      if retries < 3 then
        match dispatch net fuel (Mode.serve url) s { req with retries := some (retries + 1) } with
        | none => none
        | some (s', resp, ev) =>
          some (s', resp, Event.forward url false :: Event.delay 10 :: ev)
      else
        match dispatch net fuel Mode.lb (s.MarkBackendStatus url false)
            { req with attempts := some (GetAttemptsFromContext req + 1) } with
        | none => none
        | some (s', resp, ev) =>
          some (s', resp, Event.forward url false :: Event.markDead url :: ev)

/-- The dispatch entry point for one inbound request, with enough fuel for
every reachable control path (see `dispatch_isSome_of_fuel`). -/
def lb (net : String → Bool) (s : ServerPool) (req : Request) :
    Option (ServerPool × Response × List Event) :=
  dispatch net 64 Mode.lb s req

/-- Iterate `GetNextPeer` `k` times, collecting the returned indices (the
iteration stops early only on the empty-pool panic). -/
def getPeers (s : ServerPool) : Nat → List (Option Nat) × ServerPool
  | 0 => ([], s)
  | k + 1 =>
    match s.GetNextPeer with
    | none => ([], s)
    | some (r, s1) =>
      let p := getPeers s1 k
      (r :: p.1, p.2)

/-- Number of `http.Error` writes in an event trace. -/
def errWrites (ev : List Event) : Nat :=
  ev.countP fun e =>
    match e with
    | Event.errorWrite _ _ => true
    | _ => false

/-- URLs of the forwarding attempts in an event trace, in order and with
multiplicity. -/
def fwdTargets (ev : List Event) : List String :=
  ev.filterMap fun e =>
    match e with
    | Event.forward u _ => some u
    | _ => none

/-- How many forwarding attempts an event trace contains for a given URL. -/
def fwdCount (ev : List Event) (u : String) : Nat := (fwdTargets ev).count u

/-- The startup loop of `main`: one backend per token of the comma-separated
`-backends` flag, created with `Alive: true`; the cursor starts at zero.
(`main` aborts with `log.Fatal` before this loop when the flag is empty, so
the token list of a served process is non-empty.) -/
def setupPool (tokens : List String) : ServerPool :=
  { backends := tokens.map fun tok => { URL := tok, Alive := true }, current := 0 }

/-- Fuel measure for `Mode.lb` (strictly decreasing along every `dispatch`
step, see `dispatch_isSome_of_fuel`). -/
def fuelLB (req : Request) : Nat :=
  if GetAttemptsFromContext req > 3 then 1 else 5 * (4 - GetAttemptsFromContext req) + 9

/-- Fuel measure for `Mode.serve`. -/
def fuelServe (req : Request) : Nat :=
  5 * (4 - min (GetAttemptsFromContext req) 4) + (3 - min (GetRetryFromContext req) 3) + 5

/-- Fuel measure of a dispatch configuration. -/
def fuelOf : Mode → Request → Nat
  | Mode.lb, req => fuelLB req
  | Mode.serve _, req => fuelServe req

/-- The transport environment of a deployment whose every forward attempt
fails with a transport error. -/
def netFail : String → Bool := fun _ => false

/-- A transport environment in which every forward attempt succeeds. -/
def netOK : String → Bool := fun _ => true

/-- What a caller-visible response may look like: a proxied response from a
backend whose forward succeeded, or an `http.Error` with status 503 and one
of the two plain-text bodies written by `lb`. -/
def RespOK (net : String → Bool) : Response → Prop
  | Response.success u => net u = true
  | Response.failure st body =>
    st = 503 ∧ (body = "service not available" ∨ body = "Service not available")

/-- The event trace of the two-backend all-fail run used as concrete input
against the per-backend retry-budget claim. -/
def cexEvents : List Event :=
  [Event.forward "b" false, Event.delay 10, Event.forward "b" false,
   Event.delay 10, Event.forward "b" false, Event.delay 10,
   Event.forward "b" false, Event.markDead "b", Event.forward "a" false,
   Event.markDead "a", Event.errorWrite 503 "Service not available"]

/-! ## Lemmas about the scan loop of `GetNextPeer` -/

theorem scanAlive_eq_none_iff (bs : List Backend) (k : Nat) :
    ∀ i, scanAlive bs i k = none ↔ ∀ j, i ≤ j → j < i + k → aliveAt bs j = false := by
  induction k with
  | zero =>
    intro i
    constructor
    · intro _ j h1 h2; omega
    · intro _; rfl
  | succ k ih =>
    intro i
    constructor
    · intro h j h1 h2
      cases ha : aliveAt bs i with
      | true => simp [scanAlive, ha] at h
      | false =>
        rcases Nat.eq_or_lt_of_le h1 with rfl | hlt
        · exact ha
        · have h' : scanAlive bs (i + 1) k = none := by simpa [scanAlive, ha] using h
          exact (ih (i + 1)).mp h' j hlt (by omega)
    · intro h
      have ha : aliveAt bs i = false := h i (le_refl i) (by omega)
      simp only [scanAlive, ha]
      simp only [Bool.false_eq_true, if_false]
      exact (ih (i + 1)).mpr fun j h1 h2 => h j (by omega) (by omega)

theorem scanAlive_eq_some (bs : List Backend) (k : Nat) :
    ∀ i m, scanAlive bs i k = some m →
      i ≤ m ∧ m < i + k ∧ aliveAt bs m = true ∧
        ∀ j, i ≤ j → j < m → aliveAt bs j = false := by
  induction k with
  | zero => intro i m h; simp [scanAlive] at h
  | succ k ih =>
    intro i m h
    cases ha : aliveAt bs i with
    | true =>
      have hm : some i = some m := by simpa [scanAlive, ha] using h
      obtain rfl : i = m := Option.some.inj hm
      exact ⟨le_refl _, by omega, ha, fun j h1 h2 => absurd h1 (by omega)⟩
    | false =>
      have h' : scanAlive bs (i + 1) k = some m := by simpa [scanAlive, ha] using h
      obtain ⟨h1, h2, h3, h4⟩ := ih (i + 1) m h'
      refine ⟨by omega, by omega, h3, ?_⟩
      intro j hj1 hj2
      rcases Nat.eq_or_lt_of_le hj1 with rfl | hlt
      · exact ha
      · exact h4 j (by omega) hj2

/-- Every residue `j < n` is hit by some point of the length-`n` window
starting at `i`. -/
theorem mod_surj_on_window (n i j : Nat) (hn : 0 < n) (hj : j < n) :
    ∃ m, i ≤ m ∧ m < i + n ∧ m % n = j := by
  have hd := Nat.div_add_mod i n
  have hr : i % n < n := Nat.mod_lt _ hn
  by_cases hc : i % n ≤ j
  · refine ⟨n * (i / n) + j, by omega, by omega, ?_⟩
    rw [Nat.mul_add_mod, Nat.mod_eq_of_lt hj]
  · refine ⟨n * (i / n) + (n + j), by omega, by omega, ?_⟩
    rw [Nat.mul_add_mod, Nat.add_mod_left, Nat.mod_eq_of_lt hj]

theorem aliveAt_mod (bs : List Backend) (m : Nat) :
    aliveAt bs m = aliveAt bs (m % bs.length) := by
  unfold aliveAt
  rw [Nat.mod_mod_of_dvd m (dvd_refl bs.length)]

theorem aliveAt_of_get? (bs : List Backend) (p : Nat) (b : Backend)
    (hp : bs.get? p = some b) (hlt : p < bs.length) :
    aliveAt bs p = b.Alive := by
  unfold aliveAt
  rw [Nat.mod_eq_of_lt hlt, hp]

/-! ## Lemmas about `NextIndex` and `GetNextPeer` -/

theorem NextIndex_of_ne_nil (s : ServerPool) (h : s.backends ≠ []) :
    s.NextIndex = some ((s.current + 1 % s.backends.length) % U64,
      { s with current := (s.current + 1 % s.backends.length) % U64 }) := by
  have hpos : 0 < s.backends.length := List.length_pos.mpr h
  have hne : ¬ s.backends.length = 0 := by omega
  simp [ServerPool.NextIndex, hne]

theorem aliveAt_true_iff (bs : List Backend) (i : Nat) :
    aliveAt bs i = true ↔ ∃ b, bs.get? (i % bs.length) = some b ∧ b.Alive = true := by
  unfold aliveAt
  cases hget : bs.get? (i % bs.length) with
  | none => simp
  | some b => simp

theorem GetNextPeer_scan_none (s : ServerPool) (h : s.backends ≠ [])
    (hscan : scanAlive s.backends ((s.current + 1 % s.backends.length) % U64)
      s.backends.length = none) :
    s.GetNextPeer = some (none,
      { s with current := (s.current + 1 % s.backends.length) % U64 }) := by
  simp [ServerPool.GetNextPeer, NextIndex_of_ne_nil s h, hscan]

theorem GetNextPeer_scan_some_eq (s : ServerPool) (h : s.backends ≠ []) (i : Nat)
    (hscan : scanAlive s.backends ((s.current + 1 % s.backends.length) % U64)
      s.backends.length = some i)
    (heq : i = (s.current + 1 % s.backends.length) % U64) :
    s.GetNextPeer = some (some (i % s.backends.length),
      { s with current := (s.current + 1 % s.backends.length) % U64 }) := by
  subst heq
  simp [ServerPool.GetNextPeer, NextIndex_of_ne_nil s h, hscan]

theorem GetNextPeer_scan_some_ne (s : ServerPool) (h : s.backends ≠ []) (i : Nat)
    (hscan : scanAlive s.backends ((s.current + 1 % s.backends.length) % U64)
      s.backends.length = some i)
    (hne : i ≠ (s.current + 1 % s.backends.length) % U64) :
    s.GetNextPeer = some (some (i % s.backends.length),
      { s with current := i % s.backends.length }) := by
  simp [ServerPool.GetNextPeer, NextIndex_of_ne_nil s h, hscan, hne]

/-- The behaviour of `GetNextPeer` on a non-empty pool: it yields a value, the
backend list is untouched, a returned index points at a backend observed
alive, and `nil` comes back exactly when every backend is observed dead. -/
theorem GetNextPeer_spec (s : ServerPool) (h : s.backends ≠ []) :
    ∃ r s1, s.GetNextPeer = some (r, s1) ∧ s1.backends = s.backends ∧
      (∀ idx, r = some idx → ∃ b, s.backends.get? idx = some b ∧ b.Alive = true) ∧
      (r = none ↔ ∀ b ∈ s.backends, b.Alive = false) := by
  have hpos : 0 < s.backends.length := List.length_pos.mpr h
  cases hscan : scanAlive s.backends ((s.current + 1 % s.backends.length) % U64)
      s.backends.length with
  | none =>
    refine ⟨none, _, GetNextPeer_scan_none s h hscan, rfl, by simp, ?_⟩
    simp only [true_iff]
    intro b hb
    obtain ⟨p, hp⟩ := List.mem_iff_get?.mp hb
    have hplt : p < s.backends.length := by
      by_contra hge
      rw [List.get?_eq_none.mpr (by omega)] at hp
      cases hp
    obtain ⟨m, hm1, hm2, hm3⟩ :=
      mod_surj_on_window s.backends.length ((s.current + 1 % s.backends.length) % U64)
        p hpos hplt
    have hdead := (scanAlive_eq_none_iff s.backends s.backends.length
      ((s.current + 1 % s.backends.length) % U64)).mp hscan m hm1 hm2
    rw [aliveAt_mod, hm3, aliveAt_of_get? _ _ _ hp hplt] at hdead
    exact hdead
  | some i =>
    obtain ⟨hi1, hi2, hi3, hi4⟩ :=
      scanAlive_eq_some s.backends s.backends.length
        ((s.current + 1 % s.backends.length) % U64) i hscan
    obtain ⟨b, hget, hbA⟩ := (aliveAt_true_iff s.backends i).mp hi3
    have halive : ∀ idx, some (i % s.backends.length) = some idx →
        ∃ b, s.backends.get? idx = some b ∧ b.Alive = true := by
      intro idx hidx'
      obtain rfl : i % s.backends.length = idx := Option.some.inj hidx'
      exact ⟨b, hget, hbA⟩
    have hiff : (some (i % s.backends.length) = none ↔ ∀ b ∈ s.backends, b.Alive = false) := by
      refine iff_of_false (by simp) ?_
      intro hall
      have hmem : b ∈ s.backends := List.get?_mem hget
      rw [hall b hmem] at hbA
      cases hbA
    by_cases hne : i = (s.current + 1 % s.backends.length) % U64
    · exact ⟨some (i % s.backends.length), _,
        GetNextPeer_scan_some_eq s h i hscan hne, rfl, halive, hiff⟩
    · exact ⟨some (i % s.backends.length), _,
        GetNextPeer_scan_some_ne s h i hscan hne, rfl, halive, hiff⟩

/-- C1: refuted by evaluating the code.  `NextIndex` computes
`atomic.AddUint64(&current, 1 % len)` and returns the raw new counter: on a
two-backend pool with cursor 5 it returns 6, which is not the claimed
`(5+1) mod 2 = 0` and lies outside `0..1`; on a one-backend pool with cursor
7 it adds `1 % 1 = 0`, so the cursor is not incremented and the call returns
7. -/
theorem NextIndex_raw_counter :
    ServerPool.NextIndex ⟨[⟨"a", true⟩, ⟨"b", true⟩], 5⟩ =
      some (6, ⟨[⟨"a", true⟩, ⟨"b", true⟩], 6⟩) ∧
    ¬ (6 < 2) ∧ ¬ (6 = (5 + 1) % 2) ∧
    ServerPool.NextIndex ⟨[⟨"a", true⟩], 7⟩ = some (7, ⟨[⟨"a", true⟩], 7⟩) := by
  refine ⟨by decide, by omega, by omega, by decide⟩

/-! ## Claim C4 -/

theorem markList_length (bs : List Backend) (u : String) (a : Bool) :
    (markList bs u a).length = bs.length := by
  induction bs with
  | nil => rfl
  | cons b rest ih =>
    by_cases hb : b.URL = u
    · simp [markList, hb]
    · simp [markList, hb, ih]

/-- Pointwise description of the marking loop: only the entry at the first
matching index (i.e. `findIdx`) changes, and there only the `Alive` field. -/
theorem markList_get? (bs : List Backend) (u : String) (a : Bool) :
    ∀ i, (markList bs u a).get? i =
      if i = bs.findIdx (fun b => b.URL == u) then
        (bs.get? i).map (fun b => { b with Alive := a })
      else bs.get? i := by
  induction bs with
  | nil =>
    intro i
    simp [markList]
  | cons b rest ih =>
    intro i
    by_cases hb : b.URL = u
    · have hp : (b.URL == u) = true := beq_iff_eq.mpr hb
      cases i with
      | zero => simp [markList, hb, List.findIdx_cons, hp]
      | succ i => simp [markList, hb, List.findIdx_cons, hp]
    · have hp : (b.URL == u) = false := by simp [hb]
      cases i with
      | zero => simp [markList, hb, List.findIdx_cons, hp]
      | succ i =>
        simp [markList, hb, List.findIdx_cons, hp]
        simpa using ih i

theorem markList_no_match (bs : List Backend) (u : String) (a : Bool)
    (h : ∀ b ∈ bs, b.URL ≠ u) : markList bs u a = bs := by
  induction bs with
  | nil => rfl
  | cons b rest ih =>
    have hb : b.URL ≠ u := h b (by simp)
    simp [markList, hb]
    exact ih fun b' hb' => h b' (by simp [hb'])

/-- With pairwise-distinct URLs, the first index whose backend carries the URL
of the backend stored at `j` is `j` itself. -/
theorem findIdx_of_nodup_urls (bs : List Backend)
    (hnodup : (bs.map Backend.URL).Nodup) :
    ∀ (j : Nat) (bj : Backend), bs.get? j = some bj →
      bs.findIdx (fun b => b.URL == bj.URL) = j := by
  induction bs with
  | nil => intro j bj hj; simp at hj
  | cons b rest ih =>
    intro j bj hj
    have hnd : (∀ x ∈ rest, ¬ x.URL = b.URL) ∧ (rest.map Backend.URL).Nodup := by
      simpa using hnodup
    cases j with
    | zero =>
      obtain rfl : b = bj := Option.some.inj (by simpa using hj)
      simp [List.findIdx_cons]
    | succ j =>
      have hj' : rest.get? j = some bj := by simpa using hj
      have hb : b.URL ≠ bj.URL := by
        intro he
        exact hnd.1 bj (List.get?_mem hj') he.symm
      have hp : (b.URL == bj.URL) = false := by simp [hb]
      simp [List.findIdx_cons, hp, ih hnd.2 j bj hj']

/-- A backend observed dead is never returned, over any number of iterated
`GetNextPeer` calls (which only move the cursor, never liveness). -/
theorem getPeers_skips_dead :
    ∀ (k : Nat) (s : ServerPool) (j : Nat) (b : Backend),
      s.backends.get? j = some b → b.Alive = false →
      some j ∉ (getPeers s k).1 := by
  intro k
  induction k with
  | zero => intro s j b _ _; simp [getPeers]
  | succ k ih =>
    intro s j b hj hb
    by_cases hne : s.backends = []
    · rw [hne] at hj; simp at hj
    · obtain ⟨r, s1, hG, hbacks, halive, _⟩ := GetNextPeer_spec s hne
      have step : (getPeers s (k + 1)).1 = r :: (getPeers s1 k).1 := by
        simp [getPeers, hG]
      rw [step]
      intro hmem
      rcases List.mem_cons.mp hmem with heq | hmem'
      · obtain ⟨b', hget', hbA'⟩ := halive j heq.symm
        obtain rfl : b' = b := Option.some.inj (hget'.symm.trans hj)
        rw [hb] at hbA'
        cases hbA'
      · exact ih s1 j b (by rw [hbacks]; exact hj) hb hmem'

/-! ## Claim C6 -/

/-- C6: with pairwise-distinct backend URLs, `MarkBackendStatus(url(B), false)`
sets exactly backend B's liveness to false (first match wins; nothing else —
other entries and the cursor — changes), and afterwards no iterated sequence
of `GetNextPeer` calls ever returns B's index until liveness is restored. -/
theorem mark_then_select (s : ServerPool) (j : Nat) (bj : Backend)
    (hnodup : (s.backends.map Backend.URL).Nodup)
    (hj : s.backends.get? j = some bj) :
    (s.MarkBackendStatus bj.URL false).backends.get? j =
      some { bj with Alive := false } ∧
    (∀ i, i ≠ j →
      (s.MarkBackendStatus bj.URL false).backends.get? i = s.backends.get? i) ∧
    (s.MarkBackendStatus bj.URL false).current = s.current ∧
    (∀ k, some j ∉ (getPeers (s.MarkBackendStatus bj.URL false) k).1) := by
  have hfind : s.backends.findIdx (fun b => b.URL == bj.URL) = j :=
    findIdx_of_nodup_urls s.backends hnodup j bj hj
  have hget : (s.MarkBackendStatus bj.URL false).backends.get? j =
      some { bj with Alive := false } := by
    show (markList s.backends bj.URL false).get? j = _
    rw [markList_get?, hfind, if_pos rfl, hj]
    rfl
  refine ⟨hget, ?_, rfl, ?_⟩
  · intro i hi
    show (markList s.backends bj.URL false).get? i = _
    rw [markList_get?, hfind, if_neg hi]
  · intro k
    exact getPeers_skips_dead k (s.MarkBackendStatus bj.URL false) j
      { bj with Alive := false } hget rfl

/-- Witness for C6: after marking backend `"b"` (index 1) dead in a concrete
two-backend pool, it is dead at index 1 and two subsequent `GetNextPeer`
calls avoid index 1. -/
theorem mark_then_select_witness :
    (ServerPool.MarkBackendStatus ⟨[⟨"a", true⟩, ⟨"b", true⟩], 0⟩ "b"
        false).backends.get? 1 = some ⟨"b", false⟩ ∧
    some 1 ∉ (getPeers
      (ServerPool.MarkBackendStatus ⟨[⟨"a", true⟩, ⟨"b", true⟩], 0⟩ "b" false) 2).1 :=
  ⟨(mark_then_select ⟨[⟨"a", true⟩, ⟨"b", true⟩], 0⟩ 1 ⟨"b", true⟩
      (by decide) (by decide)).1,
   (mark_then_select ⟨[⟨"a", true⟩, ⟨"b", true⟩], 0⟩ 1 ⟨"b", true⟩
      (by decide) (by decide)).2.2.2 2⟩

/-! ## Claim C10 -/

/-- C10: `MarkBackendStatus` is pure frame: the cursor is untouched, the
length is untouched, every entry other than the first URL match is untouched,
the first URL match (if any) changes only its `Alive` field, and when no
backend carries the URL the pool is unchanged entirely. -/
theorem MarkBackendStatus_frame (s : ServerPool) (u : String) (a : Bool) :
    (s.MarkBackendStatus u a).current = s.current ∧
    (s.MarkBackendStatus u a).backends.length = s.backends.length ∧
    (∀ i, i ≠ s.backends.findIdx (fun b => b.URL == u) →
      (s.MarkBackendStatus u a).backends.get? i = s.backends.get? i) ∧
    ((s.MarkBackendStatus u a).backends.get?
        (s.backends.findIdx (fun b => b.URL == u)) =
      (s.backends.get? (s.backends.findIdx (fun b => b.URL == u))).map
        (fun b => { b with Alive := a })) ∧
    ((∀ b ∈ s.backends, b.URL ≠ u) → s.MarkBackendStatus u a = s) := by
  refine ⟨rfl, markList_length s.backends u a, ?_, ?_, ?_⟩
  · intro i hi
    show (markList s.backends u a).get? i = _
    rw [markList_get?, if_neg hi]
  · show (markList s.backends u a).get? _ = _
    rw [markList_get?, if_pos rfl]
  · intro hnone
    show ({ s with backends := markList s.backends u a } : ServerPool) = s
    rw [markList_no_match s.backends u a hnone]

/-- Witness for C10: marking a URL absent from a concrete pool changes
nothing. -/
theorem MarkBackendStatus_frame_witness :
    ServerPool.MarkBackendStatus ⟨[⟨"a", true⟩, ⟨"b", false⟩], 3⟩ "z" false =
      ⟨[⟨"a", true⟩, ⟨"b", false⟩], 3⟩ :=
  (MarkBackendStatus_frame ⟨[⟨"a", true⟩, ⟨"b", false⟩], 3⟩ "z" false).2.2.2.2
    (by decide)

/-! ## Claim C7 -/

/-- C7: `HealthCheck` emits one record per backend, touches neither the
cursor nor the URLs, sets every backend's liveness to its probe outcome, and
is idempotent when the probe outcomes do not change between runs. -/
theorem HealthCheck_probe_idempotent (s : ServerPool) (dial : String → Bool) :
    (s.HealthCheck dial).2.length = s.backends.length ∧
    (s.HealthCheck dial).1.current = s.current ∧
    (∀ i b, s.backends.get? i = some b →
      (s.HealthCheck dial).1.backends.get? i =
        some { b with Alive := isBackendAlive dial b.URL } ∧
      (s.HealthCheck dial).2.get? i =
        some (b.URL, if isBackendAlive dial b.URL then "up" else "down")) ∧
    ((s.HealthCheck dial).1.HealthCheck dial).1 = (s.HealthCheck dial).1 := by
  refine ⟨by simp [ServerPool.HealthCheck], rfl, ?_, ?_⟩
  · intro i b hb
    have hb' : s.backends[i]? = some b := by simpa using hb
    constructor
    · simp [ServerPool.HealthCheck, List.getElem?_map, hb', isBackendAlive]
    · simp [ServerPool.HealthCheck, List.getElem?_map, hb', isBackendAlive]
  · simp only [ServerPool.HealthCheck]
    congr 1
    rw [List.map_map]
    exact List.map_congr_left fun b _ => rfl

/-- Witness for C7: the per-backend update equations at a concrete pool and
probe environment. -/
theorem HealthCheck_probe_idempotent_witness :
    (ServerPool.HealthCheck ⟨[⟨"a", false⟩, ⟨"b", true⟩], 0⟩
        (fun u => u == "a")).1.backends.get? 1 = some ⟨"b", false⟩ ∧
    (ServerPool.HealthCheck ⟨[⟨"a", false⟩, ⟨"b", true⟩], 0⟩
        (fun u => u == "a")).2.get? 1 = some ("b", "down") :=
  (HealthCheck_probe_idempotent ⟨[⟨"a", false⟩, ⟨"b", true⟩], 0⟩
    (fun u => u == "a")).2.2.1 1 ⟨"b", true⟩ (by decide)

/-! ## Step equations of the dispatch state machine -/

theorem dispatch_lb_ceiling (net : String → Bool) (fuel : Nat) (s : ServerPool)
    (req : Request) (ha : GetAttemptsFromContext req > 3) :
    dispatch net (fuel + 1) Mode.lb s req =
      some (s, Response.failure 503 "service not available",
        [Event.errorWrite 503 "service not available"]) := by
  simp [dispatch, ha]

theorem dispatch_lb_peer (net : String → Bool) (fuel : Nat) (s : ServerPool)
    (req : Request) (ha : ¬ GetAttemptsFromContext req > 3) :
    dispatch net (fuel + 1) Mode.lb s req =
      match s.GetNextPeer with
      | none => none
      | some (none, s1) =>
        some (s1, Response.failure 503 "Service not available",
          [Event.errorWrite 503 "Service not available"])
      | some (some idx, s1) =>
        match s1.backends.get? idx with
        | none => none
        | some b => dispatch net fuel (Mode.serve b.URL) s1 req := by
  simp [dispatch, ha]

theorem dispatch_serve_ok (net : String → Bool) (fuel : Nat) (s : ServerPool)
    (req : Request) (url : String) (hn : net url = true) :
    dispatch net (fuel + 1) (Mode.serve url) s req =
      some (s, Response.success url, [Event.forward url true]) := by
  simp [dispatch, hn]

theorem dispatch_serve_retry (net : String → Bool) (fuel : Nat) (s : ServerPool)
    (req : Request) (url : String) (hn : net url = false)
    (hr : GetRetryFromContext req < 3) :
    dispatch net (fuel + 1) (Mode.serve url) s req =
      match dispatch net fuel (Mode.serve url) s
          { req with retries := some (GetRetryFromContext req + 1) } with
      | none => none
      | some (s', resp, ev) =>
        some (s', resp, Event.forward url false :: Event.delay 10 :: ev) := by
  simp [dispatch, hn, hr]

theorem dispatch_serve_exhaust (net : String → Bool) (fuel : Nat) (s : ServerPool)
    (req : Request) (url : String) (hn : net url = false)
    (hr : ¬ GetRetryFromContext req < 3) :
    dispatch net (fuel + 1) (Mode.serve url) s req =
      match dispatch net fuel Mode.lb (s.MarkBackendStatus url false)
          { req with attempts := some (GetAttemptsFromContext req + 1) } with
      | none => none
      | some (s', resp, ev) =>
        some (s', resp, Event.forward url false :: Event.markDead url :: ev) := by
  simp [dispatch, hn, hr]

/-! ## Trace bookkeeping -/

theorem errWrites_forward (u : String) (ok : Bool) (ev : List Event) :
    errWrites (Event.forward u ok :: ev) = errWrites ev := by
  simp [errWrites, List.countP_cons]

theorem errWrites_delay (ms : Nat) (ev : List Event) :
    errWrites (Event.delay ms :: ev) = errWrites ev := by
  simp [errWrites, List.countP_cons]

theorem errWrites_markDead (u : String) (ev : List Event) :
    errWrites (Event.markDead u :: ev) = errWrites ev := by
  simp [errWrites, List.countP_cons]

theorem errWrites_singleton (st : Nat) (body : String) :
    errWrites [Event.errorWrite st body] = 1 := by
  simp [errWrites, List.countP_cons]

theorem fwdTargets_forward (u : String) (ok : Bool) (ev : List Event) :
    fwdTargets (Event.forward u ok :: ev) = u :: fwdTargets ev := by
  simp [fwdTargets]

theorem fwdTargets_delay (ms : Nat) (ev : List Event) :
    fwdTargets (Event.delay ms :: ev) = fwdTargets ev := by
  simp [fwdTargets]

theorem fwdTargets_markDead (u : String) (ev : List Event) :
    fwdTargets (Event.markDead u :: ev) = fwdTargets ev := by
  simp [fwdTargets]

theorem fwdTargets_errorWrite (st : Nat) (body : String) (ev : List Event) :
    fwdTargets (Event.errorWrite st body :: ev) = fwdTargets ev := by
  simp [fwdTargets]

theorem MarkBackendStatus_ne_nil (s : ServerPool) (u : String) (a : Bool)
    (h : s.backends ≠ []) : (s.MarkBackendStatus u a).backends ≠ [] := by
  intro hnil
  have hlen : (s.MarkBackendStatus u a).backends.length = s.backends.length :=
    markList_length s.backends u a
  rw [hnil] at hlen
  simp at hlen
  exact h (List.length_eq_zero.mp hlen.symm)

/-! ## Totality of dispatch on non-empty pools -/

/-- The fuel measure `fuelOf` strictly decreases along every `dispatch` step,
so any fuel at least `fuelOf` (in particular the constant 64 used by `lb`,
since `fuelOf` never exceeds 29) makes `dispatch` yield a value on a
non-empty pool: the Go recursion always terminates with a response. -/
theorem dispatch_isSome (net : String → Bool) :
    ∀ (fuel : Nat) (mode : Mode) (s : ServerPool) (req : Request),
      fuelOf mode req ≤ fuel → s.backends ≠ [] →
      (dispatch net fuel mode s req).isSome = true := by
  intro fuel
  induction fuel with
  | zero =>
    intro mode s req hμ _
    exfalso
    cases mode with
    | lb =>
      have hμ' : fuelLB req ≤ 0 := hμ
      unfold fuelLB at hμ'
      split at hμ' <;> omega
    | serve url =>
      have hμ' : fuelServe req ≤ 0 := hμ
      unfold fuelServe at hμ'
      omega
  | succ fuel ih =>
    intro mode s req hμ hne
    cases mode with
    | lb =>
      have hμ' : fuelLB req ≤ fuel + 1 := hμ
      by_cases ha : GetAttemptsFromContext req > 3
      · rw [dispatch_lb_ceiling net fuel s req ha]
        rfl
      · rw [dispatch_lb_peer net fuel s req ha]
        obtain ⟨r, s1, hG, hbacks, halive, _⟩ := GetNextPeer_spec s hne
        rw [hG]
        cases r with
        | none => rfl
        | some idx =>
          obtain ⟨b, hget, _⟩ := halive idx rfl
          have hget1 : s1.backends.get? idx = some b := by rw [hbacks]; exact hget
          show (match s1.backends.get? idx with
            | none => none
            | some b => dispatch net fuel (Mode.serve b.URL) s1 req).isSome = true
          rw [hget1]
          show (dispatch net fuel (Mode.serve b.URL) s1 req).isSome = true
          apply ih
          · show fuelServe req ≤ fuel
            unfold fuelLB at hμ'
            rw [if_neg ha] at hμ'
            unfold fuelServe
            omega
          · rwa [hbacks]
    | serve url =>
      have hμ' : fuelServe req ≤ fuel + 1 := hμ
      unfold fuelServe at hμ'
      by_cases hn : net url
      · rw [dispatch_serve_ok net fuel s req url hn]
        rfl
      · have hn' : net url = false := by simpa using hn
        by_cases hr : GetRetryFromContext req < 3
        · rw [dispatch_serve_retry net fuel s req url hn' hr]
          have hb : fuelOf (Mode.serve url)
              { req with retries := some (GetRetryFromContext req + 1) } ≤ fuel := by
            show fuelServe { req with retries := some (GetRetryFromContext req + 1) } ≤ fuel
            have e1 : GetAttemptsFromContext
                { req with retries := some (GetRetryFromContext req + 1) } =
                GetAttemptsFromContext req := rfl
            have e2 : GetRetryFromContext
                { req with retries := some (GetRetryFromContext req + 1) } =
                GetRetryFromContext req + 1 := rfl
            unfold fuelServe
            rw [e1, e2]
            omega
          have hrec := ih (Mode.serve url) s
            { req with retries := some (GetRetryFromContext req + 1) } hb hne
          cases hd : dispatch net fuel (Mode.serve url) s
              { req with retries := some (GetRetryFromContext req + 1) } with
          | none => rw [hd] at hrec; simp at hrec
          | some out =>
            obtain ⟨s2, resp2, ev2⟩ := out
            rfl
        · rw [dispatch_serve_exhaust net fuel s req url hn' hr]
          have hb : fuelOf Mode.lb
              { req with attempts := some (GetAttemptsFromContext req + 1) } ≤ fuel := by
            show fuelLB { req with attempts := some (GetAttemptsFromContext req + 1) } ≤ fuel
            have e3 : GetAttemptsFromContext
                { req with attempts := some (GetAttemptsFromContext req + 1) } =
                GetAttemptsFromContext req + 1 := rfl
            unfold fuelLB
            rw [e3]
            split <;> omega
          have hrec := ih Mode.lb (s.MarkBackendStatus url false)
            { req with attempts := some (GetAttemptsFromContext req + 1) } hb
            (MarkBackendStatus_ne_nil s url false hne)
          cases hd : dispatch net fuel Mode.lb (s.MarkBackendStatus url false)
              { req with attempts := some (GetAttemptsFromContext req + 1) } with
          | none => rw [hd] at hrec; simp at hrec
          | some out =>
            obtain ⟨s2, resp2, ev2⟩ := out
            rfl


/-! ## Response shape: only 503s ever reach the caller -/

/-- Whatever happens, a completed dispatch returns either the proxied
response of a backend whose forward succeeded, or an `http.Error` with
status 503 and one of the two plain-text bodies; and the trace contains
exactly one error write in the failure case and none in the success case. -/
theorem dispatch_respOK (net : String → Bool) :
    ∀ (fuel : Nat) (mode : Mode) (s : ServerPool) (req : Request)
      (s' : ServerPool) (resp : Response) (ev : List Event),
      dispatch net fuel mode s req = some (s', resp, ev) →
      RespOK net resp ∧
        errWrites ev = (if resp.isSuccess then 0 else 1) := by
  intro fuel
  induction fuel with
  | zero =>
    intro mode s req s' resp ev h
    simp [dispatch] at h
  | succ fuel ih =>
    intro mode s req s' resp ev h
    cases mode with
    | lb =>
      by_cases ha : GetAttemptsFromContext req > 3
      · rw [dispatch_lb_ceiling net fuel s req ha] at h
        obtain ⟨h1, h2, h3⟩ : s = s' ∧
            Response.failure 503 "service not available" = resp ∧
            [Event.errorWrite 503 "service not available"] = ev := by
          simpa using h
        subst h2
        subst h3
        exact ⟨⟨rfl, Or.inl rfl⟩, errWrites_singleton 503 _⟩
      · rw [dispatch_lb_peer net fuel s req ha] at h
        cases hG : s.GetNextPeer with
        | none => rw [hG] at h; exact Option.noConfusion h
        | some pr =>
          obtain ⟨r, s1⟩ := pr
          rw [hG] at h
          cases r with
          | none =>
            obtain ⟨h1, h2, h3⟩ : s1 = s' ∧
                Response.failure 503 "Service not available" = resp ∧
                [Event.errorWrite 503 "Service not available"] = ev := by
              simpa using h
            subst h2
            subst h3
            exact ⟨⟨rfl, Or.inr rfl⟩, errWrites_singleton 503 _⟩
          | some idx =>
            have h' : (match s1.backends.get? idx with
                | none => none
                | some b => dispatch net fuel (Mode.serve b.URL) s1 req) =
                some (s', resp, ev) := h
            cases hget : s1.backends.get? idx with
            | none => rw [hget] at h'; exact Option.noConfusion h'
            | some b =>
              rw [hget] at h'
              exact ih _ _ _ _ _ _ h'
    | serve url =>
      by_cases hn : net url
      · rw [dispatch_serve_ok net fuel s req url hn] at h
        obtain ⟨h1, h2, h3⟩ : s = s' ∧ Response.success url = resp ∧
            [Event.forward url true] = ev := by
          simpa using h
        subst h2
        subst h3
        refine ⟨hn, ?_⟩
        simp [errWrites, List.countP_cons, Response.isSuccess]
      · have hn' : net url = false := by simpa using hn
        by_cases hr : GetRetryFromContext req < 3
        · rw [dispatch_serve_retry net fuel s req url hn' hr] at h
          cases hd : dispatch net fuel (Mode.serve url) s
              { req with retries := some (GetRetryFromContext req + 1) } with
          | none => rw [hd] at h; exact Option.noConfusion h
          | some out =>
            obtain ⟨s2, resp2, ev2⟩ := out
            rw [hd] at h
            obtain ⟨h1, h2, h3⟩ : s2 = s' ∧ resp2 = resp ∧
                Event.forward url false :: Event.delay 10 :: ev2 = ev := by
              simpa using h
            subst h2
            subst h3
            obtain ⟨hOK, herr⟩ := ih _ _ _ _ _ _ hd
            refine ⟨hOK, ?_⟩
            rw [errWrites_forward, errWrites_delay]
            exact herr
        · rw [dispatch_serve_exhaust net fuel s req url hn' hr] at h
          cases hd : dispatch net fuel Mode.lb (s.MarkBackendStatus url false)
              { req with attempts := some (GetAttemptsFromContext req + 1) } with
          | none => rw [hd] at h; exact Option.noConfusion h
          | some out =>
            obtain ⟨s2, resp2, ev2⟩ := out
            rw [hd] at h
            obtain ⟨h1, h2, h3⟩ : s2 = s' ∧ resp2 = resp ∧
                Event.forward url false :: Event.markDead url :: ev2 = ev := by
              simpa using h
            subst h2
            subst h3
            obtain ⟨hOK, herr⟩ := ih _ _ _ _ _ _ hd
            refine ⟨hOK, ?_⟩
            rw [errWrites_forward, errWrites_markDead]
            exact herr

/-! ## The all-failing-transport runs -/

/-- When every forward attempt fails, a completed dispatch ends in a 503,
writes it exactly once, and forwards to a bounded number of distinct
backends: at most `4 - attempts` from the top of `lb`, and at most
`1 + (3 - attempts)` from inside a backend's serve/error-handler (whose own
URL is always among the forwarded targets). -/
theorem dispatch_all_fail :
    ∀ (fuel : Nat) (mode : Mode) (s : ServerPool) (req : Request)
      (s' : ServerPool) (resp : Response) (ev : List Event),
      dispatch netFail fuel mode s req = some (s', resp, ev) →
      (resp = Response.failure 503 "service not available" ∨
        resp = Response.failure 503 "Service not available") ∧
      errWrites ev = 1 ∧
      (match mode with
       | Mode.lb =>
         (fwdTargets ev).toFinset.card ≤ 4 - GetAttemptsFromContext req
       | Mode.serve url =>
         (fwdTargets ev).toFinset.card ≤ 1 + (3 - GetAttemptsFromContext req) ∧
           url ∈ fwdTargets ev) := by
  intro fuel
  induction fuel with
  | zero =>
    intro mode s req s' resp ev h
    simp [dispatch] at h
  | succ fuel ih =>
    intro mode s req s' resp ev h
    cases mode with
    | lb =>
      by_cases ha : GetAttemptsFromContext req > 3
      · rw [dispatch_lb_ceiling netFail fuel s req ha] at h
        obtain ⟨h1, h2, h3⟩ : s = s' ∧
            Response.failure 503 "service not available" = resp ∧
            [Event.errorWrite 503 "service not available"] = ev := by
          simpa using h
        subst h2
        subst h3
        refine ⟨Or.inl rfl, errWrites_singleton 503 _, ?_⟩
        show ((fwdTargets [Event.errorWrite 503 "service not available"]).toFinset.card ≤ _)
        simp [fwdTargets]
      · rw [dispatch_lb_peer netFail fuel s req ha] at h
        cases hG : s.GetNextPeer with
        | none => rw [hG] at h; exact Option.noConfusion h
        | some pr =>
          obtain ⟨r, s1⟩ := pr
          rw [hG] at h
          cases r with
          | none =>
            obtain ⟨h1, h2, h3⟩ : s1 = s' ∧
                Response.failure 503 "Service not available" = resp ∧
                [Event.errorWrite 503 "Service not available"] = ev := by
              simpa using h
            subst h2
            subst h3
            refine ⟨Or.inr rfl, errWrites_singleton 503 _, ?_⟩
            show ((fwdTargets [Event.errorWrite 503 "Service not available"]).toFinset.card ≤ _)
            simp [fwdTargets]
          | some idx =>
            have h' : (match s1.backends.get? idx with
                | none => none
                | some b => dispatch netFail fuel (Mode.serve b.URL) s1 req) =
                some (s', resp, ev) := h
            cases hget : s1.backends.get? idx with
            | none => rw [hget] at h'; exact Option.noConfusion h'
            | some b =>
              rw [hget] at h'
              obtain ⟨hresp, herr, hcard⟩ := ih _ _ _ _ _ _ h'
              obtain ⟨hcard', _⟩ : (fwdTargets ev).toFinset.card ≤
                  1 + (3 - GetAttemptsFromContext req) ∧ b.URL ∈ fwdTargets ev := hcard
              refine ⟨hresp, herr, ?_⟩
              show (fwdTargets ev).toFinset.card ≤ 4 - GetAttemptsFromContext req
              omega
    | serve url =>
      have hn' : netFail url = false := rfl
      by_cases hr : GetRetryFromContext req < 3
      · rw [dispatch_serve_retry netFail fuel s req url hn' hr] at h
        cases hd : dispatch netFail fuel (Mode.serve url) s
            { req with retries := some (GetRetryFromContext req + 1) } with
        | none => rw [hd] at h; exact Option.noConfusion h
        | some out =>
          obtain ⟨s2, resp2, ev2⟩ := out
          rw [hd] at h
          obtain ⟨h1, h2, h3⟩ : s2 = s' ∧ resp2 = resp ∧
              Event.forward url false :: Event.delay 10 :: ev2 = ev := by
            simpa using h
          subst h2
          subst h3
          obtain ⟨hresp, herr, hcard⟩ := ih _ _ _ _ _ _ hd
          obtain ⟨hcard', hmem⟩ : (fwdTargets ev2).toFinset.card ≤
              1 + (3 - GetAttemptsFromContext
                { req with retries := some (GetRetryFromContext req + 1) }) ∧
              url ∈ fwdTargets ev2 := hcard
          have ha' : GetAttemptsFromContext
              { req with retries := some (GetRetryFromContext req + 1) } =
              GetAttemptsFromContext req := rfl
          rw [ha'] at hcard'
          refine ⟨hresp, ?_, ?_, ?_⟩
          · rw [errWrites_forward, errWrites_delay]
            exact herr
          · show ((fwdTargets (Event.forward url false :: Event.delay 10 :: ev2)).toFinset.card ≤ _)
            rw [fwdTargets_forward, fwdTargets_delay, List.toFinset_cons,
              Finset.insert_eq_self.mpr (List.mem_toFinset.mpr hmem)]
            exact hcard'
          · rw [fwdTargets_forward]
            exact List.mem_cons_self url _
      · rw [dispatch_serve_exhaust netFail fuel s req url hn' hr] at h
        cases hd : dispatch netFail fuel Mode.lb (s.MarkBackendStatus url false)
            { req with attempts := some (GetAttemptsFromContext req + 1) } with
        | none => rw [hd] at h; exact Option.noConfusion h
        | some out =>
          obtain ⟨s2, resp2, ev2⟩ := out
          rw [hd] at h
          obtain ⟨h1, h2, h3⟩ : s2 = s' ∧ resp2 = resp ∧
              Event.forward url false :: Event.markDead url :: ev2 = ev := by
            simpa using h
          subst h2
          subst h3
          obtain ⟨hresp, herr, hcard⟩ := ih _ _ _ _ _ _ hd
          have hcard' : (fwdTargets ev2).toFinset.card ≤
              4 - GetAttemptsFromContext
                { req with attempts := some (GetAttemptsFromContext req + 1) } := hcard
          have ha' : GetAttemptsFromContext
              { req with attempts := some (GetAttemptsFromContext req + 1) } =
              GetAttemptsFromContext req + 1 := rfl
          rw [ha'] at hcard'
          refine ⟨hresp, ?_, ?_, ?_⟩
          · rw [errWrites_forward, errWrites_markDead]
            exact herr
          · show ((fwdTargets (Event.forward url false :: Event.markDead url :: ev2)).toFinset.card ≤ _)
            rw [fwdTargets_forward, fwdTargets_markDead, List.toFinset_cons]
            have := Finset.card_insert_le url (fwdTargets ev2).toFinset
            omega
          · rw [fwdTargets_forward]
            exact List.mem_cons_self url _


/-! ## Claim C2 -/

/-- C2: the dispatch entry point terminates at once with the 503 error write
(and no forwarding) whenever the request context's attempts value exceeds 3
(absent values defaulting to 1); and on a non-empty pool whose every forward
fails, the whole dispatch completes with a 503 response, exactly one error
write, and forwards to at most 4 distinct backends — the attempts counter
starting at 1 and incremented once per backend exhaustion. -/
theorem lb_attempts_ceiling_and_exhaustion :
    (∀ (net : String → Bool) (fuel : Nat) (s : ServerPool) (req : Request),
      GetAttemptsFromContext req > 3 →
      dispatch net (fuel + 1) Mode.lb s req =
        some (s, Response.failure 503 "service not available",
          [Event.errorWrite 503 "service not available"])) ∧
    (∀ s : ServerPool, s.backends ≠ [] →
      ∃ s' resp ev, lb netFail s ⟨none, none⟩ = some (s', resp, ev) ∧
        (resp = Response.failure 503 "service not available" ∨
          resp = Response.failure 503 "Service not available") ∧
        errWrites ev = 1 ∧
        (fwdTargets ev).toFinset.card ≤ 4) := by
  constructor
  · intro net fuel s req ha
    exact dispatch_lb_ceiling net fuel s req ha
  · intro s hne
    have hb : fuelOf Mode.lb (⟨none, none⟩ : Request) ≤ 64 := by decide
    have hsome := dispatch_isSome netFail 64 Mode.lb s ⟨none, none⟩ hb hne
    obtain ⟨out, hout⟩ := Option.isSome_iff_exists.mp hsome
    obtain ⟨s', resp, ev⟩ := out
    obtain ⟨hresp, herr, hcard⟩ := dispatch_all_fail 64 Mode.lb s ⟨none, none⟩ s' resp ev hout
    refine ⟨s', resp, ev, hout, hresp, herr, ?_⟩
    have hcard' : (fwdTargets ev).toFinset.card ≤
        4 - GetAttemptsFromContext ⟨none, none⟩ := hcard
    have ha : GetAttemptsFromContext (⟨none, none⟩ : Request) = 1 := rfl
    omega

/-- Witness for C2: a request entering with attempts 4 is rejected at once —
even on an empty pool, no peer selection happens — and a concrete all-fail
run completes. -/
theorem lb_attempts_ceiling_and_exhaustion_witness :
    dispatch netFail (0 + 1) Mode.lb ⟨[], 0⟩ ⟨some 4, none⟩ =
      some (⟨[], 0⟩, Response.failure 503 "service not available",
        [Event.errorWrite 503 "service not available"]) ∧
    (lb netFail ⟨[⟨"a", true⟩], 5⟩ ⟨none, none⟩).isSome = true := by
  constructor
  · exact lb_attempts_ceiling_and_exhaustion.1 netFail 0 ⟨[], 0⟩ ⟨some 4, none⟩ (by decide)
  · obtain ⟨s', resp, ev, hout, _⟩ :=
      lb_attempts_ceiling_and_exhaustion.2 ⟨[⟨"a", true⟩], 5⟩ (by decide)
    rw [hout]
    rfl

/-! ## Claim C8 -/

/-- C8: a completed dispatch from the entry point hands the caller either a
backend's proxied response (only when that backend's forward succeeded) or an
HTTP 503 with one of the two plain-text bodies — nothing else; the 503 is
written exactly once on failure and never on success, so transient transport
errors inside the run are absorbed. -/
theorem dispatch_terminal_503_only (net : String → Bool) (fuel : Nat)
    (s : ServerPool) (req : Request) (s' : ServerPool) (resp : Response)
    (ev : List Event) (h : dispatch net fuel Mode.lb s req = some (s', resp, ev)) :
    RespOK net resp ∧ errWrites ev = (if resp.isSuccess then 0 else 1) :=
  dispatch_respOK net fuel Mode.lb s req s' resp ev h

/-- Witness for C8 at a concrete successful run. -/
theorem dispatch_terminal_503_only_witness :
    RespOK netOK (Response.success "b") ∧
    errWrites [Event.forward "b" true] =
      (if (Response.success "b").isSuccess then 0 else 1) :=
  dispatch_terminal_503_only netOK 64 ⟨[⟨"a", true⟩, ⟨"b", true⟩], 0⟩ ⟨none, none⟩
    ⟨[⟨"a", true⟩, ⟨"b", true⟩], 1⟩ (Response.success "b") [Event.forward "b" true]
    (by decide)

/-! ## Claim C5 -/

/-- C5: refuted on the code.  In the two-backend all-fail run, the first
selected backend ("b") receives 3 same-backend retries, but the second
backend ("a") is marked dead after a single failed forward — zero retries —
because the exhausted `Retry` context value persists across the re-entry
into `lb`.  The claim demands 1 + 3 = 4 forward attempts before every
mark-dead; backend "a" gets exactly 1. -/
theorem retry_carryover_cex :
    lb netFail ⟨[⟨"a", true⟩, ⟨"b", true⟩], 0⟩ ⟨none, none⟩ =
      some (⟨[⟨"a", false⟩, ⟨"b", false⟩], 3⟩,
        Response.failure 503 "Service not available", cexEvents) ∧
    Event.markDead "a" ∈ cexEvents ∧
    fwdCount cexEvents "a" = 1 ∧
    ¬ fwdCount cexEvents "a" = 4 := by
  refine ⟨by decide, by decide, by decide, by decide⟩

/-- C5 (amended): a backend whose forwards all fail and whose request context
carries no retries value receives exactly 3 same-backend retries — 4 forward
attempts interleaved with the 10 ms delays — and is then marked dead via
`MarkBackendStatus(url, false)` strictly before `lb` re-enters peer selection
with attempts+1 and the retries value left at 3; a backend entered with a
context retries value already ≥ 3 (every backend after the first re-dispatch)
is marked dead right after its single failed forward, with zero retries. -/
theorem retry_budget_amended :
    (∀ (net : String → Bool) (fuel : Nat) (s : ServerPool) (req : Request)
      (url : String), net url = false → req.retries = none →
      dispatch net (fuel + 4) (Mode.serve url) s req =
        (match dispatch net fuel Mode.lb (s.MarkBackendStatus url false)
            { req with attempts := some (GetAttemptsFromContext req + 1),
                       retries := some 3 } with
         | none => none
         | some (s', resp, ev) =>
           some (s', resp,
             Event.forward url false :: Event.delay 10 ::
             Event.forward url false :: Event.delay 10 ::
             Event.forward url false :: Event.delay 10 ::
             Event.forward url false :: Event.markDead url :: ev))) ∧
    (∀ (net : String → Bool) (fuel : Nat) (s : ServerPool) (req : Request)
      (url : String), net url = false → GetRetryFromContext req ≥ 3 →
      dispatch net (fuel + 1) (Mode.serve url) s req =
        (match dispatch net fuel Mode.lb (s.MarkBackendStatus url false)
            { req with attempts := some (GetAttemptsFromContext req + 1) } with
         | none => none
         | some (s', resp, ev) =>
           some (s', resp, Event.forward url false :: Event.markDead url :: ev))) := by
  constructor
  · intro net fuel s req url hn hret
    have h0 : GetRetryFromContext req = 0 := by simp [GetRetryFromContext, hret]
    show dispatch net (fuel + 1 + 1 + 1 + 1) (Mode.serve url) s req = _
    rw [dispatch_serve_retry net (fuel + 1 + 1 + 1) s req url hn (by omega)]
    rw [h0]
    simp only [Nat.zero_add]
    rw [dispatch_serve_retry net (fuel + 1 + 1) s { req with retries := some 1 } url hn
      (by simp [GetRetryFromContext])]
    have e1 : GetRetryFromContext { req with retries := some 1 } = 1 := rfl
    rw [e1]
    have f1 : ({ { req with retries := some 1 } with retries := some (1 + 1) } : Request) =
        { req with retries := some 2 } := rfl
    rw [f1]
    rw [dispatch_serve_retry net (fuel + 1) s { req with retries := some 2 } url hn
      (by simp [GetRetryFromContext])]
    have e2 : GetRetryFromContext { req with retries := some 2 } = 2 := rfl
    rw [e2]
    have f2 : ({ { req with retries := some 2 } with retries := some (2 + 1) } : Request) =
        { req with retries := some 3 } := rfl
    rw [f2]
    rw [dispatch_serve_exhaust net fuel s { req with retries := some 3 } url hn
      (by simp [GetRetryFromContext])]
    have e3 : GetAttemptsFromContext { req with retries := some 3 } =
        GetAttemptsFromContext req := rfl
    rw [e3]
    have f3 : ({ { req with retries := some 3 } with
        attempts := some (GetAttemptsFromContext req + 1) } : Request) =
        { req with attempts := some (GetAttemptsFromContext req + 1),
                   retries := some 3 } := rfl
    rw [f3]
    cases hX : dispatch net fuel Mode.lb (s.MarkBackendStatus url false)
        { req with attempts := some (GetAttemptsFromContext req + 1),
                   retries := some 3 } with
    | none => rfl
    | some out =>
      obtain ⟨s', resp, ev⟩ := out
      rfl
  · intro net fuel s req url hn hr3
    exact dispatch_serve_exhaust net fuel s req url hn (by omega)

/-- Witness for C5 (amended): the first-backend budget at a concrete pool,
with the whole continuation evaluated. -/
theorem retry_budget_amended_witness :
    dispatch netFail (3 + 4) (Mode.serve "b") ⟨[⟨"a", true⟩, ⟨"b", true⟩], 0⟩
        ⟨none, none⟩ =
      some (⟨[⟨"a", false⟩, ⟨"b", false⟩], 1⟩,
        Response.failure 503 "Service not available", cexEvents) :=
  (retry_budget_amended.1 netFail 3 ⟨[⟨"a", true⟩, ⟨"b", true⟩], 0⟩ ⟨none, none⟩ "b"
    rfl rfl).trans (by decide)


/-! ## Claim C9 -/

theorem GetNextPeer_backends (s : ServerPool) (r : Option Nat) (s1 : ServerPool)
    (h : s.GetNextPeer = some (r, s1)) : s1.backends = s.backends := by
  by_cases hne : s.backends = []
  · have hnone : s.GetNextPeer = none := by
      simp [ServerPool.GetNextPeer, ServerPool.NextIndex, hne]
    rw [hnone] at h
    exact Option.noConfusion h
  · obtain ⟨r', s1', hG, hb, _, _⟩ := GetNextPeer_spec s hne
    rw [hG] at h
    have hpair : (r', s1') = (r, s1) := Option.some.inj h
    have hs : s1' = s1 := congrArg Prod.snd hpair
    rw [← hs]
    exact hb

/-- C9: on an empty pool both `NextIndex` (the increment's `1 % 0`) and
`GetNextPeer` (which enters through `NextIndex`) hit the division-by-zero
panic, modelled as `none`; the startup loop over a non-empty token list
yields a non-empty pool, on every non-empty pool both operations yield
values, and the serving operations (`MarkBackendStatus`, `HealthCheck`,
`GetNextPeer`) never shrink the pool — so the panic branch is unreachable
while serving. -/
theorem empty_pool_panic_unreachable :
    (∀ c : Nat, ServerPool.NextIndex ⟨[], c⟩ = none) ∧
    (∀ c : Nat, ServerPool.GetNextPeer ⟨[], c⟩ = none) ∧
    (∀ tokens : List String, tokens ≠ [] → (setupPool tokens).backends ≠ []) ∧
    (∀ s : ServerPool, s.backends ≠ [] →
      (s.NextIndex).isSome = true ∧ (s.GetNextPeer).isSome = true) ∧
    (∀ (s : ServerPool) (u : String) (a : Bool),
      (s.MarkBackendStatus u a).backends.length = s.backends.length) ∧
    (∀ (s : ServerPool) (dial : String → Bool),
      (s.HealthCheck dial).1.backends.length = s.backends.length) ∧
    (∀ (s : ServerPool) (r : Option Nat) (s1 : ServerPool),
      s.GetNextPeer = some (r, s1) → s1.backends = s.backends) := by
  refine ⟨?_, ?_, ?_, ?_, ?_, ?_, GetNextPeer_backends⟩
  · intro c
    simp [ServerPool.NextIndex]
  · intro c
    simp [ServerPool.GetNextPeer, ServerPool.NextIndex]
  · intro tokens htok
    simp [setupPool, htok]
  · intro s hne
    constructor
    · rw [NextIndex_of_ne_nil s hne]
      rfl
    · obtain ⟨r, s1, hG, _, _, _⟩ := GetNextPeer_spec s hne
      rw [hG]
      rfl
  · intro s u a
    exact markList_length s.backends u a
  · intro s dial
    simp [ServerPool.HealthCheck]

/-- Witness for C9: the guarded startup with one token gives a pool on which
both operations are defined. -/
theorem empty_pool_panic_unreachable_witness :
    ((setupPool ["x"]).NextIndex).isSome = true ∧
    ((setupPool ["x"]).GetNextPeer).isSome = true :=
  empty_pool_panic_unreachable.2.2.2.1 (setupPool ["x"])
    (empty_pool_panic_unreachable.2.2.1 ["x"] (by decide))

end LB
